import Mathlib

/-!
Verification of the natural-language specification of a batching-and-caching
data-source layer for a document store, against the repository's code.

The repository ships the thin constructor (`MongoDataSource` in
`src/datasource.js`) together with the test suite of its caching engine
(`createCachingMethods`); the engine module itself (`cache.js`) is not under
`src/`.  The engine is therefore modelled here from the specification
(sections 3 to 6 of `spec.md`), while the constructor is embedded directly
from `src/datasource.js`.
-/

namespace Mongo

/-- Candidate record identifiers as application code can supply them:
`null`, `undefined`, an arbitrary string, or an already-canonical native
identifier object (carrying its canonical hex string form). -/
inductive IdInput where
  | nullId
  | undefId
  | strId (s : String)
  | objId (s : String)
deriving DecidableEq, Repr

/-- A hexadecimal character, as accepted by the store's canonical
identifier format. -/
def isHexChar (c : Char) : Bool :=
  c.isDigit || (97 ≤ c.toNat && c.toNat ≤ 102) || (65 ≤ c.toNat && c.toNat ≤ 70)

/-- Modelled from the spec (§4.2 Identifier Validator, for the missing
`cache.js`): an identifier is well-formed when it is an already-canonical
native identifier object or a 24-character hexadecimal string; `null`,
`undefined` and any other string are malformed. -/
def isWellFormedId : IdInput → Bool
  | .objId _ => true
  | .strId s => s.length == 24 && s.toList.all isHexChar
  | .nullId => false
  | .undefId => false

/-- The canonical string form of an identifier (its JS `toString`):
well-formed identifiers yield their hex string; `null` and `undefined`
stringify to their JS names (only used for key derivation of malformed
inputs, which the engine never queries). -/
def canonStr : IdInput → String
  | .nullId => "null"
  | .undefId => "undefined"
  | .strId s => s
  | .objId s => s

/-- A stored record (document).  The engine treats records as opaque
values; one `createdAt` field is carried so that filters have something
to match on, mirroring the repository's test documents. -/
structure Doc where
  _id : IdInput
  createdAt : Nat
deriving DecidableEq, Repr

/-- The test `docHasId d c` holds when document `d` carries an identifier whose
canonical string form is `c` (documents with `null`/`undefined`
identifiers match nothing, as in the store contract). -/
def docHasId (d : Doc) (c : String) : Bool :=
  match d._id with
  | .nullId => false
  | .undefId => false
  | .strId s => s == c
  | .objId s => s == c

/-- A serializable filter expression (field predicates) over documents.
Two filters are the same request only when their serialized forms are
byte-identical; on this filter language structural equality coincides
with byte-identical serialization. -/
inductive MongoFilter where
  | createdAtLte (n : Nat)
  | createdAtGte (n : Nat)
  | fieldIdEq (s : String)
deriving DecidableEq, Repr

/-- The predicate a filter denotes on documents. -/
def MongoFilter.matches : MongoFilter → Doc → Bool
  | .createdAtLte n, d => d.createdAt ≤ n
  | .createdAtGte n, d => n ≤ d.createdAt
  | .fieldIdEq s, d => docHasId d s

/-- The stable serialization of a filter (its JSON form in the code);
used as the discriminator of filter-keyed cache keys. -/
def MongoFilter.serialize : MongoFilter → String
  | .createdAtLte n => "createdAt.lte." ++ toString n
  | .createdAtGte n => "createdAt.gte." ++ toString n
  | .fieldIdEq s => "id.eq." ++ s

/-- A value held by the async cache: a record, an ordered sequence of
records, or the explicit no-match sentinel (distinct from absence). -/
inductive CacheVal where
  | doc (d : Doc)
  | docs (l : List Doc)
  | notFound
deriving DecidableEq, Repr

/-- A cache key: `namespace : collectionName : discriminator` where the
discriminator is an identifier's canonical string form or a filter's
serialized form.  Identifier-keyed and filter-keyed entries never mix. -/
inductive CacheKey where
  | idKey (coll : String) (idStr : String)
  | queryKey (coll : String) (q : MongoFilter)
deriving DecidableEq, Repr

/-- The collection-name component of a cache key (its namespace within a
shared cache). -/
def CacheKey.collOf : CacheKey → String
  | .idKey c _ => c
  | .queryKey c _ => c

/-- The opaque string form of a cache key on the wire. -/
def CacheKey.render : CacheKey → String
  | .idKey c i => "db:mongo:" ++ c ++ ":" ++ i
  | .queryKey c q => "db:mongo:" ++ c ++ ":" ++ q.serialize

/-- The outcome of a single identifier load: the matching record, the
explicit not-found result (`undefined`) for a well-formed identifier the
store does not know, or the explicit `null` result for a malformed
identifier that never reached the store. -/
inductive LoadResult where
  | found (d : Doc)
  | notFound
  | nullResult
deriving DecidableEq, Repr

/-- One async-cache entry: key, value, optional absolute expiry time. -/
structure CacheEntry where
  key : CacheKey
  val : CacheVal
  expiresAt : Option Nat
deriving DecidableEq, Repr

/-- Modelled from the spec (for the missing `cache.js`): the whole state
of one collection's caching facade — the external store's contents, the
pluggable async cache's entries, the batching loaders' inter-turn result
caches (§4.6), operation counters observing store and cache traffic, the
current time, and the flush permission flag. -/
structure Engine where
  store : List Doc
  collName : String
  cache : List CacheEntry
  idMemo : List (String × LoadResult)
  queryMemo : List (MongoFilter × List Doc)
  storeCalls : Nat
  cacheGets : Nat
  cacheSets : Nat
  cacheDeletes : Nat
  now : Nat
  allowFlush : Bool

/-- Facade construction options (§6): the flush permission flag defaults
to disabled when absent. -/
structure CachingConfig where
  debug : Option Bool := none
  allowFlushingCollectionCache : Option Bool := none

/-- Modelled from the spec (§4.6, for the missing `cache.js`):
`createCachingMethods` builds a fresh facade over a store collection with
an empty cache and empty loader caches. -/
def createCachingMethods (store : List Doc) (collName : String)
    (config : CachingConfig) : Engine :=
  { store := store
    collName := collName
    cache := []
    idMemo := []
    queryMemo := []
    storeCalls := 0
    cacheGets := 0
    cacheSets := 0
    cacheDeletes := 0
    now := 0
    allowFlush := config.allowFlushingCollectionCache.getD false }

/-- Let `dt` seconds of real time elapse (the engine itself never advances
the clock: cache expiry is the only timing the spec gives). -/
def Engine.advance (st : Engine) (dt : Nat) : Engine :=
  { st with now := st.now + dt }

/-- Async cache read (§4.3): the entry's value when present and not yet
expired, otherwise absent. -/
def cacheGet (st : Engine) (k : CacheKey) : Option CacheVal :=
  match st.cache.find? (fun e => e.key == k) with
  | none => none
  | some e =>
    match e.expiresAt with
    | none => some e.val
    | some t => if st.now < t then some e.val else none

/-- A per-call ttl option denotes a cache duration only when present and
positive (§6: absence or zero means "do not persist beyond this call"). -/
def ttlPos : Option Nat → Bool
  | some n => decide (0 < n)
  | none => false

/-- One identifier request joining a scheduling turn: the candidate
identifier and the caller's per-call ttl option. -/
structure IdReq where
  id : IdInput
  ttl : Option Nat
deriving DecidableEq, Repr

/-- Where an identifier request is routed during the synchronous enqueue
phase: resolved immediately (malformed input, async-cache hit, or loader
result-cache hit) or pending in the turn's batch under its canonical
string form. -/
inductive RouteId where
  | immediate (r : LoadResult)
  | pending (c : String)
deriving DecidableEq, Repr

/-- Reading an identifier-keyed cache value back as a load outcome. -/
def cacheValToResult : CacheVal → LoadResult
  | .doc d => .found d
  | .notFound => .notFound
  | .docs _ => .notFound

/-- Writing a load outcome as an identifier-keyed cache value (only
records and the not-found sentinel are ever written). -/
def resultToCacheVal : LoadResult → CacheVal
  | .found d => .doc d
  | .notFound => .notFound
  | .nullResult => .notFound

/-- Modelled from the spec (§4.4 steps 1–2, for the missing `cache.js`):
route one identifier request.  Malformed identifiers resolve immediately
to the `null` result and never enter the window; a request carrying a
cache duration consults the async cache first; remaining requests consult
the loader's inter-turn result cache (§4.6) and otherwise join the
turn's pending set. -/
def routeIdReq (st : Engine) (r : IdReq) : RouteId :=
  if isWellFormedId r.id then
    let c := canonStr r.id
    let viaMemo : RouteId :=
      match st.idMemo.find? (fun p => p.1 == c) with
      | some p => .immediate p.2
      | none => .pending c
    if ttlPos r.ttl then
      match cacheGet st (.idKey st.collName c) with
      | some v => .immediate (cacheValToResult v)
      | none => viaMemo
    else viaMemo
  else .immediate .nullResult

/-- Duplicate elimination keeping first occurrences, with an accumulator
of already-seen elements. -/
def dedupFirstAux {α : Type} [DecidableEq α] : List α → List α → List α
  | [], _ => []
  | x :: xs, seen =>
    if x ∈ seen then dedupFirstAux xs seen
    else x :: dedupFirstAux xs (x :: seen)

/-- Duplicate elimination keeping first occurrences. -/
def dedupFirst {α : Type} [DecidableEq α] (l : List α) : List α :=
  dedupFirstAux l []

/-- The store's multi-identifier lookup (§6): given the turn's pending
set of canonical identifiers, return the subset of records whose
identifier lies in the set. -/
def storeFindByIds (store : List Doc) (cs : List String) : List Doc :=
  store.filter (fun d => cs.any (fun c => docHasId d c))

/-- Resolve one pending canonical identifier from the batch's combined
result set: the record the returned-identifier lookup finds, or the
explicit not-found result. -/
def resolvePending (results : List Doc) (c : String) : LoadResult :=
  match results.find? (fun d => docHasId d c) with
  | some d => .found d
  | none => .notFound

/-- What a single identifier resolves to directly against the store:
the first record carrying it, or the not-found result. -/
def resolveId (store : List Doc) (c : String) : LoadResult :=
  match store.find? (fun d => docHasId d c) with
  | some d => .found d
  | none => .notFound

/-- Modelled from the spec (§4.4, for the missing `cache.js`): process
one scheduling turn of identifier requests.  Each request is routed
(steps 1–2); pending identifiers are deduplicated (step 3); one store
query covers all of them — none when the batch is empty (step 4); each
pending request resolves from the combined results (steps 5 and 7); the
loader's result cache learns each batched identifier's outcome (§4.6),
and requests that carried a cache duration write their resolved value to
the async cache under their identifier key (step 6). -/
def processIdTurn (st : Engine) (reqs : List IdReq) : List LoadResult × Engine :=
  let routes := reqs.map (routeIdReq st)
  let gets := reqs.countP (fun r => isWellFormedId r.id && ttlPos r.ttl)
  let pendingC := dedupFirst (routes.filterMap (fun rt =>
    match rt with
    | .pending c => some c
    | .immediate _ => none))
  let results := storeFindByIds st.store pendingC
  let outs := routes.map (fun rt =>
    match rt with
    | .immediate r => r
    | .pending c => resolvePending results c)
  let memoWrites := pendingC.map (fun c => (c, resolvePending results c))
  let cacheWrites := reqs.filterMap (fun r =>
    match r.ttl, routeIdReq st r with
    | some n, .pending c =>
      if 0 < n then
        some ⟨CacheKey.idKey st.collName c,
              resultToCacheVal (resolvePending results c),
              some (st.now + n)⟩
      else none
    | _, _ => none)
  (outs,
   { st with
     storeCalls := st.storeCalls + (if pendingC.isEmpty then 0 else 1)
     cacheGets := st.cacheGets + gets
     cacheSets := st.cacheSets + cacheWrites.length
     idMemo := memoWrites ++ st.idMemo
     cache := cacheWrites ++ st.cache })

/-- Facade operation `loadOneById` (§4.6): a one-request scheduling turn. -/
def loadOneById (st : Engine) (id : IdInput) (ttl : Option Nat) :
    LoadResult × Engine :=
  let p := processIdTurn st [⟨id, ttl⟩]
  (p.1.headD .nullResult, p.2)

/-- Facade operation `loadManyByIds` (§4.6 and §8): well-formed input identifiers join one
scheduling turn, in input order, each under the shared per-call ttl
option; malformed inputs are excluded before batching (as the
repository's tests pin down: only the well-formed identifiers surface in
the output). -/
def loadManyByIds (st : Engine) (ids : List IdInput) (ttl : Option Nat) :
    List LoadResult × Engine :=
  processIdTurn st ((ids.filter isWellFormedId).map (fun i => ⟨i, ttl⟩))

/-- One filter request joining a scheduling turn. -/
structure QueryReq where
  q : MongoFilter
  ttl : Option Nat
deriving DecidableEq, Repr

/-- Where a filter request is routed during the synchronous enqueue
phase. -/
inductive RouteQ where
  | immediate (l : List Doc)
  | pending (q : MongoFilter)
deriving DecidableEq, Repr

/-- Reading a filter-keyed cache value back as a result list. -/
def cacheValToDocs : CacheVal → List Doc
  | .docs l => l
  | .doc d => [d]
  | .notFound => []

/-- Modelled from the spec (§4.5 step 1, for the missing `cache.js`):
route one filter request: async cache first when a duration was supplied,
then the query loader's inter-turn result cache, otherwise pending. -/
def routeQueryReq (st : Engine) (r : QueryReq) : RouteQ :=
  let viaMemo : RouteQ :=
    match st.queryMemo.find? (fun p => p.1 == r.q) with
    | some p => .immediate p.2
    | none => .pending r.q
  if ttlPos r.ttl then
    match cacheGet st (.queryKey st.collName r.q) with
    | some v => .immediate (cacheValToDocs v)
    | none => viaMemo
  else viaMemo

/-- The store's compound-filter lookup (§6): one query returning the
union, in store order, of the records matching any of the given filters,
with no indication of which filter matched. -/
def storeFindOr (store : List Doc) (qs : List MongoFilter) : List Doc :=
  store.filter (fun d => qs.any (fun q => q.matches d))

/-- Modelled from the spec (§4.5, for the missing `cache.js`): process
one scheduling turn of filter requests.  Cache misses are deduplicated
(on this filter language byte-identical serialization is structural
equality) and covered by one compound store query; each pending filter's
result is the partition of the combined result set obtained by
re-applying that filter's predicate to every returned record; results
are written to the query loader's result cache and, when a duration was
supplied, to the async cache under the filter key. -/
def processQueryTurn (st : Engine) (reqs : List QueryReq) :
    List (List Doc) × Engine :=
  let routes := reqs.map (routeQueryReq st)
  let gets := reqs.countP (fun r => ttlPos r.ttl)
  let pendingQ := dedupFirst (routes.filterMap (fun rt =>
    match rt with
    | .pending q => some q
    | .immediate _ => none))
  let combined := storeFindOr st.store pendingQ
  let partitionFor := fun (q : MongoFilter) => combined.filter (fun d => q.matches d)
  let outs := routes.map (fun rt =>
    match rt with
    | .immediate l => l
    | .pending q => partitionFor q)
  let memoWrites := pendingQ.map (fun q => (q, partitionFor q))
  let cacheWrites := reqs.filterMap (fun r =>
    match r.ttl, routeQueryReq st r with
    | some n, .pending q =>
      if 0 < n then
        some ⟨CacheKey.queryKey st.collName q,
              CacheVal.docs (partitionFor q),
              some (st.now + n)⟩
      else none
    | _, _ => none)
  (outs,
   { st with
     storeCalls := st.storeCalls + (if pendingQ.isEmpty then 0 else 1)
     cacheGets := st.cacheGets + gets
     cacheSets := st.cacheSets + cacheWrites.length
     queryMemo := memoWrites ++ st.queryMemo
     cache := cacheWrites ++ st.cache })

/-- Facade operation `loadManyByQuery` (§4.6): a one-request scheduling turn. -/
def loadManyByQuery (st : Engine) (q : MongoFilter) (ttl : Option Nat) :
    List Doc × Engine :=
  let p := processQueryTurn st [⟨q, ttl⟩]
  (p.1.headD [], p.2)

/-- The argument of `deleteFromCacheById`: a record identifier or a
filter, as the load that produced the entry would have keyed it. -/
inductive IdOrFilter where
  | id (i : IdInput)
  | query (q : MongoFilter)
deriving DecidableEq, Repr

/-- Facade operation `deleteFromCacheById` (§4.6): remove the async-cache entry under the
same key derivation the corresponding loader uses, and purge the
corresponding entry of that loader's own inter-turn result cache. -/
def deleteFromCacheById (st : Engine) (x : IdOrFilter) : Engine :=
  match x with
  | .id i =>
    let c := canonStr i
    { st with
      cache := st.cache.filter (fun e => !(e.key == CacheKey.idKey st.collName c))
      idMemo := st.idMemo.filter (fun p => !(p.1 == c))
      cacheDeletes := st.cacheDeletes + 1 }
  | .query q =>
    { st with
      cache := st.cache.filter (fun e => !(e.key == CacheKey.queryKey st.collName q))
      queryMemo := st.queryMemo.filter (fun p => !(p.1 == q))
      cacheDeletes := st.cacheDeletes + 1 }

/-- Facade operation `flushCollectionCache` (§4.6): when permitted, clear every cache
entry under this collection's namespace and signal success; otherwise a
no-op returning the explicit not-permitted sentinel (`none`, modelling
JS `null`), never an error. -/
def flushCollectionCache (st : Engine) : Option Bool × Engine :=
  if st.allowFlush then
    (some true,
     { st with cache := st.cache.filter (fun e => !(e.key.collOf == st.collName)) })
  else (none, st)

/-! Embedding of the `MongoDataSource` constructor from `src/datasource.js`. -/

/-- A JavaScript value as far as the constructor's collection argument is
concerned: `null`, `undefined`, primitives, or a plain object given by
its fields. -/
inductive JsValue where
  | nullV
  | undefV
  | boolV (b : Bool)
  | numV (n : Int)
  | strV (s : String)
  | objV (fields : List (String × JsValue))

/-- The JS typeof-object test: true exactly for plain objects and for
the null value. -/
def typeofIsObject : JsValue → Bool
  | .objV _ => true
  | .nullV => true
  | _ => false

/-- The errors the constructor can raise: the explicit `GraphQLError`
thrown by the guard, or the `TypeError` JS raises when `Object.keys` is
applied to `null`. -/
inductive ConstructErr where
  | graphQLError (msg : String)
  | typeError (msg : String)
deriving DecidableEq, Repr

/-- The empty string, as the default of a JS indexing fallback. -/
def emptyName : String := ""

/-- The message of the TypeError JS raises for Object.keys(null). -/
def nullKeysMsg : String := "Cannot convert undefined or null to object"

/-- The message of the GraphQLError the constructor guard throws. -/
def singleCollectionMsg : String :=
  "MongoDataSource constructor must be given an object with a single collection"

/-- JS `Object.keys`, restricted to the values that can reach it behind
the `typeof === 'object'` conjunct: the (deduplicated, first-occurrence)
field names of a plain object; applying it to `null` throws. -/
def jsObjectKeys : JsValue → Except ConstructErr (List String)
  | .objV f => .ok (dedupFirst (f.map Prod.fst))
  | .nullV => .error (.typeError nullKeysMsg)
  | _ => .ok []

/-- Lines 7 to 17 of `src/datasource.js`: the guard computes
typeof-is-object of the collection, and (short-circuiting) whether
Object.keys of it has length one — Object.keys throwing on null; a failed
guard throws the GraphQLError; otherwise the data source binds the
collection under the first key, returned here. -/
def mongoDataSourceConstruct (collection : JsValue) : Except ConstructErr String :=
  if typeofIsObject collection then
    match jsObjectKeys collection with
    | .error e => .error e
    | .ok keys =>
      if keys.length == 1 then .ok (keys.headD emptyName)
      else .error (.graphQLError singleCollectionMsg)
  else .error (.graphQLError singleCollectionMsg)

/-- The claim's notion of a well-formed collection specification: an
object with exactly one named collection key. -/
def isSingleKeyObject : JsValue → Bool
  | .objV f => (dedupFirst (f.map Prod.fst)).length == 1
  | _ => false

/-! Concrete demonstration inputs, mirroring the repository test data. -/

/-- The demo collection name, as in the repository tests. -/
def testColl : String := "test"

/-- A well-formed 24-character hexadecimal identifier string. -/
def hexA : String := "aaaa0000bbbb0000cccc0000"

/-- A second, distinct well-formed identifier string. -/
def hexB : String := "aaaa0000bbbb0000cccc0001"

/-- A well-formed identifier string matching nothing in the demo store. -/
def hexC : String := "aaaa0000bbbb0000cccc0002"

/-- A demo document with a string identifier. -/
def docA : Doc := ⟨.strId hexA, 100⟩

/-- A demo document with a native-object identifier. -/
def docB : Doc := ⟨.objId hexB, 10⟩

/-- The demo store contents. -/
def demoStore : List Doc := [docA, docB]

/-- A demo filter matching exactly `docB` in the demo store. -/
def demoQuery : MongoFilter := .createdAtLte 50

end Mongo

/-! General lemmas about the embedding. -/

namespace Mongo

theorem mem_dedupFirstAux {α : Type} [DecidableEq α] (l seen : List α) (x : α) :
    x ∈ dedupFirstAux l seen ↔ x ∈ l ∧ x ∉ seen := by
  induction l generalizing seen with
  | nil => simp [dedupFirstAux]
  | cons y ys ih =>
    by_cases hy : y ∈ seen
    · simp only [dedupFirstAux, if_pos hy, ih, List.mem_cons]
      constructor
      · rintro ⟨hm, hns⟩
        exact ⟨Or.inr hm, hns⟩
      · rintro ⟨hm | hm, hns⟩
        · exact absurd (hm ▸ hy) hns
        · exact ⟨hm, hns⟩
    · simp only [dedupFirstAux, if_neg hy, List.mem_cons, ih]
      constructor
      · rintro (rfl | ⟨hm, hns⟩)
        · exact ⟨Or.inl rfl, hy⟩
        · exact ⟨Or.inr hm, fun hc => hns (Or.inr hc)⟩
      · rintro ⟨rfl | hm, hns⟩
        · exact Or.inl rfl
        · by_cases hxy : x = y
          · exact Or.inl hxy
          · exact Or.inr ⟨hm, fun hc => hc.elim hxy hns⟩

theorem mem_dedupFirst {α : Type} [DecidableEq α] (l : List α) (x : α) :
    x ∈ dedupFirst l ↔ x ∈ l := by
  simp [dedupFirst, mem_dedupFirstAux]

theorem dedupFirst_eq_nil_iff {α : Type} [DecidableEq α] (l : List α) :
    dedupFirst l = [] ↔ l = [] := by
  cases l with
  | nil => simp [dedupFirst, dedupFirstAux]
  | cons x xs => simp [dedupFirst, dedupFirstAux]

/-- A first-match lookup against the batch's combined result set agrees
with the lookup against the whole store, for any identifier in the
batched pending set. -/
theorem resolvePending_storeFindByIds (store : List Doc) (cs : List String)
    (c : String) (hc : c ∈ cs) :
    resolvePending (storeFindByIds store cs) c = resolveId store c := by
  unfold resolvePending resolveId storeFindByIds
  induction store with
  | nil => simp
  | cons d ds ih =>
    by_cases hd : docHasId d c
    · have : (cs.any (fun c2 => docHasId d c2)) = true :=
        List.any_eq_true.mpr ⟨c, hc, hd⟩
      simp [List.filter, this, List.find?, hd]
    · by_cases hkeep : cs.any (fun c2 => docHasId d c2)
      · simpa [List.filter, hkeep, List.find?, hd] using ih
      · simpa [List.filter, hkeep, List.find?, hd] using ih

/-- Re-filtering the combined compound-query result set by one of the
batched filters yields exactly the store's matches for that filter, in
store order. -/
theorem filter_storeFindOr (store : List Doc) (qs : List MongoFilter)
    (q : MongoFilter) (hq : q ∈ qs) :
    (storeFindOr store qs).filter (fun d => q.matches d) =
      store.filter (fun d => q.matches d) := by
  unfold storeFindOr
  induction store with
  | nil => simp
  | cons d ds ih =>
    by_cases hd : q.matches d
    · have : (qs.any (fun q2 => q2.matches d)) = true :=
        List.any_eq_true.mpr ⟨q, hq, hd⟩
      simp only [List.filter, this, hd]
      simpa [List.filter, hd] using ih
    · by_cases hkeep : qs.any (fun q2 => q2.matches d)
      · simpa [List.filter, hkeep, hd] using ih
      · simpa [List.filter, hkeep, hd] using ih

/-- Searching for `p` inside a list from which every `p`-satisfying
element was filtered out finds nothing. -/
theorem find?_filter_not {α : Type} (l : List α) (p : α → Bool) :
    (l.filter (fun a => !(p a))).find? p = none := by
  apply List.find?_eq_none.mpr
  intro x hx
  have := (List.mem_filter.mp hx).2
  simp only [Bool.not_eq_true'] at this
  simp [this]

/-- A clean facade state: empty async cache and empty loader result
caches (as `createCachingMethods` produces). -/
def Engine.clean (st : Engine) : Prop :=
  st.cache = [] ∧ st.idMemo = [] ∧ st.queryMemo = []

theorem createCachingMethods_clean (store : List Doc) (coll : String)
    (cfg : CachingConfig) : (createCachingMethods store coll cfg).clean :=
  ⟨rfl, rfl, rfl⟩

theorem cacheGet_clean (st : Engine) (hc : st.cache = []) (k : CacheKey) :
    cacheGet st k = none := by
  simp [cacheGet, hc]

/-- On a clean state, a well-formed identifier request is always routed
to the turn's pending set, whatever its ttl option. -/
theorem routeIdReq_clean (st : Engine) (hc : st.cache = [])
    (hm : st.idMemo = []) (r : IdReq) (hw : isWellFormedId r.id = true) :
    routeIdReq st r = .pending (canonStr r.id) := by
  unfold routeIdReq
  rw [hw]
  simp only [if_true, hm, cacheGet_clean st hc, List.find?_nil]
  cases h : ttlPos r.ttl <;> simp

/-- On a clean state, a filter request is always routed to the turn's
pending set, whatever its ttl option. -/
theorem routeQueryReq_clean (st : Engine) (hc : st.cache = [])
    (hm : st.queryMemo = []) (r : QueryReq) :
    routeQueryReq st r = .pending r.q := by
  unfold routeQueryReq
  simp only [hm, cacheGet_clean st hc, List.find?_nil]
  cases h : ttlPos r.ttl <;> simp

theorem filterMap_pending_id {α : Type} (l : List α) (f : α → String) :
    l.filterMap ((fun rt =>
      match rt with
      | RouteId.pending c => some c
      | RouteId.immediate _ => none) ∘ (fun r => RouteId.pending (f r))) =
      l.map f := by
  induction l with
  | nil => rfl
  | cons r rs ih => simpa [List.filterMap_cons] using ih

theorem filterMap_pending_query {α : Type} (l : List α) (f : α → MongoFilter) :
    l.filterMap ((fun rt =>
      match rt with
      | RouteQ.pending q => some q
      | RouteQ.immediate _ => none) ∘ (fun r => RouteQ.pending (f r))) =
      l.map f := by
  induction l with
  | nil => rfl
  | cons r rs ih => simpa [List.filterMap_cons] using ih

/-- On a clean state, a turn of well-formed identifier requests makes
exactly one store query (none when empty) and resolves every request,
in order, to the store's record for its own identifier (or the explicit
not-found result). -/
theorem processIdTurn_clean_spec (st : Engine) (reqs : List IdReq)
    (hc : st.cache = []) (hm : st.idMemo = [])
    (hw : ∀ r ∈ reqs, isWellFormedId r.id = true) :
    (processIdTurn st reqs).1 =
      reqs.map (fun r => resolveId st.store (canonStr r.id)) ∧
    (processIdTurn st reqs).2.storeCalls =
      st.storeCalls + (if reqs.isEmpty then 0 else 1) := by
  have hroutes : reqs.map (routeIdReq st) =
      reqs.map (fun r => RouteId.pending (canonStr r.id)) :=
    List.map_congr_left (fun r hr => routeIdReq_clean st hc hm r (hw r hr))
  unfold processIdTurn
  simp only [hroutes, List.filterMap_map, List.map_map]
  have hfm := filterMap_pending_id reqs (fun r => canonStr r.id)
  constructor
  · refine List.map_congr_left (fun r hr => ?_)
    show resolvePending
      (storeFindByIds st.store (dedupFirst (reqs.filterMap _))) (canonStr r.id) = _
    rw [hfm]
    exact resolvePending_storeFindByIds st.store _ (canonStr r.id)
      ((mem_dedupFirst _ _).mpr (List.mem_map_of_mem _ hr))
  · show st.storeCalls + _ = st.storeCalls + _
    congr 1
    rw [hfm]
    cases reqs with
    | nil => simp [dedupFirst, dedupFirstAux]
    | cons r rs =>
      simp only [List.isEmpty_cons, if_neg]
      rw [if_neg]
      · rfl
      · intro hemp
        have : (dedupFirst ((r :: rs).map (fun x => canonStr x.id))) = [] :=
          List.isEmpty_iff.mp hemp
        have := (dedupFirst_eq_nil_iff _).mp this
        simp at this

/-- On a clean state, a turn of filter requests resolves every request,
in order, to exactly the store's matches for its own filter, with one
store query when the turn is nonempty. -/
theorem processQueryTurn_clean_spec (st : Engine) (reqs : List QueryReq)
    (hc : st.cache = []) (hm : st.queryMemo = []) :
    (processQueryTurn st reqs).1 =
      reqs.map (fun r => st.store.filter (fun d => r.q.matches d)) ∧
    (processQueryTurn st reqs).2.storeCalls =
      st.storeCalls + (if reqs.isEmpty then 0 else 1) := by
  have hroutes : reqs.map (routeQueryReq st) =
      reqs.map (fun r => RouteQ.pending r.q) :=
    List.map_congr_left (fun r hr => routeQueryReq_clean st hc hm r)
  unfold processQueryTurn
  simp only [hroutes, List.filterMap_map, List.map_map]
  have hfm := filterMap_pending_query reqs (fun r => r.q)
  constructor
  · refine List.map_congr_left (fun r hr => ?_)
    show (storeFindOr st.store (dedupFirst (reqs.filterMap _))).filter
      (fun d => r.q.matches d) = _
    rw [hfm]
    exact filter_storeFindOr st.store _ r.q
      ((mem_dedupFirst _ _).mpr (List.mem_map_of_mem _ hr))
  · show st.storeCalls + _ = st.storeCalls + _
    congr 1
    rw [hfm]
    cases reqs with
    | nil => simp [dedupFirst, dedupFirstAux]
    | cons r rs =>
      simp only [List.isEmpty_cons, if_neg]
      rw [if_neg]
      · rfl
      · intro hemp
        have : (dedupFirst ((r :: rs).map (fun x => x.q))) = [] :=
          List.isEmpty_iff.mp hemp
        have := (dedupFirst_eq_nil_iff _).mp this
        simp at this

end Mongo

/-! Claim theorems follow. -/

namespace Mongo

/-- C3: for every malformed identifier (null, undefined, or a string that
is not a well-formed canonical identifier), `loadOneById` returns the
`null` result and leaves the engine state completely unchanged — zero
store calls and zero cache calls (no reads and no writes), whatever ttl
option was supplied. -/
theorem claim_c3_malformed_id_short_circuit (st : Engine) (i : IdInput)
    (t : Option Nat) (h : isWellFormedId i = false) :
    loadOneById st i t = (.nullResult, st) := by
  unfold loadOneById processIdTurn routeIdReq
  simp [h, dedupFirst, dedupFirstAux, List.countP_cons, List.countP_nil]

/-- Witness for C3: loading the malformed identifier `null` with a ttl on
a fresh facade over the demo store yields the `null` result and leaves
the state untouched. -/
theorem claim_c3_witness :
    isWellFormedId .nullId = false ∧
    loadOneById (createCachingMethods demoStore testColl {}) .nullId (some 1) =
      (.nullResult, createCachingMethods demoStore testColl {}) :=
  ⟨by decide,
   claim_c3_malformed_id_short_circuit
     (createCachingMethods demoStore testColl {}) .nullId (some 1) (by decide)⟩

/-- C9: with flushing disabled, `flushCollectionCache` returns the
explicit not-permitted sentinel (`none`, the JS `null`) without error and
leaves the whole state — in particular every cache entry, id-keyed or
filter-keyed — intact; and `createCachingMethods` leaves flushing
disabled when the `allowFlushingCollectionCache` option is absent. -/
theorem claim_c9_flush_disabled_noop (st : Engine) (h : st.allowFlush = false) :
    flushCollectionCache st = (none, st) ∧
    (∀ k, cacheGet (flushCollectionCache st).2 k = cacheGet st k) ∧
    (∀ (store : List Doc) (coll : String) (d : Option Bool),
      (createCachingMethods store coll { debug := d }).allowFlush = false) := by
  refine ⟨?_, ?_, ?_⟩
  · simp [flushCollectionCache, h]
  · intro k
    simp [flushCollectionCache, h]
  · intro store coll d
    rfl

/-- Witness for C9: on a facade that has actually cached one id-keyed and
one filter-keyed entry under the default configuration, flushing is
refused and both entries remain retrievable. -/
theorem claim_c9_witness :
    (let st := (loadManyByQuery
        ((loadOneById (createCachingMethods demoStore testColl {})
          (.strId hexA) (some 5)).2) demoQuery (some 5)).2
     flushCollectionCache st = (none, st) ∧
     cacheGet (flushCollectionCache st).2 (.idKey testColl hexA) =
       cacheGet st (.idKey testColl hexA) ∧
     cacheGet st (.idKey testColl hexA) = some (.doc docA)) := by
  refine ⟨(claim_c9_flush_disabled_noop _ (by decide)).1,
          (claim_c9_flush_disabled_noop _ (by decide)).2.1 _, by decide⟩

/-- C10: the `MongoDataSource` constructor raises an error exactly when
the supplied collection specification is not an object with exactly one
named collection key, and otherwise completes, binding the collection
under that unique key's name. -/
theorem claim_c10_constructor_guard :
    (∀ c : JsValue,
      (∃ e, mongoDataSourceConstruct c = .error e) ↔ isSingleKeyObject c = false) ∧
    (∀ f : List (String × JsValue), isSingleKeyObject (.objV f) = true →
      mongoDataSourceConstruct (.objV f) =
        .ok ((dedupFirst (f.map Prod.fst)).headD emptyName)) := by
  constructor
  · intro c
    cases c with
    | nullV => simp [mongoDataSourceConstruct, typeofIsObject, jsObjectKeys, isSingleKeyObject]
    | undefV => simp [mongoDataSourceConstruct, typeofIsObject, isSingleKeyObject]
    | boolV b => simp [mongoDataSourceConstruct, typeofIsObject, isSingleKeyObject]
    | numV n => simp [mongoDataSourceConstruct, typeofIsObject, isSingleKeyObject]
    | strV s => simp [mongoDataSourceConstruct, typeofIsObject, isSingleKeyObject]
    | objV f =>
      by_cases h1 : (dedupFirst (f.map Prod.fst)).length == 1
      · simp [mongoDataSourceConstruct, typeofIsObject, jsObjectKeys,
          isSingleKeyObject, h1]
      · simp [mongoDataSourceConstruct, typeofIsObject, jsObjectKeys,
          isSingleKeyObject, h1]
  · intro f h
    have h1 : ((dedupFirst (f.map Prod.fst)).length == 1) = true := h
    simp [mongoDataSourceConstruct, typeofIsObject, jsObjectKeys, h1]

/-- Witness for C10: a one-key collection object constructs successfully,
bound under its key's name, while a two-key object is rejected. -/
theorem claim_c10_witness :
    mongoDataSourceConstruct (.objV [("users", .numV 1)]) = .ok ("users") ∧
    isSingleKeyObject (.objV [("users", .numV 1)]) = true ∧
    (∃ e, mongoDataSourceConstruct
      (.objV [("users", .numV 1), ("posts", .numV 2)]) = .error e) :=
  ⟨claim_c10_constructor_guard.2 _ (by decide), by decide,
   (claim_c10_constructor_guard.1 _).mpr (by decide)⟩

end Mongo

namespace Mongo

/-- A found load result always carries a record whose identifier equals
the requested one. -/
theorem resolveId_found (store : List Doc) (c : String) (d : Doc)
    (h : resolveId store c = .found d) : docHasId d c = true := by
  unfold resolveId at h
  cases hfind : store.find? (fun x => docHasId x c) with
  | none => rw [hfind] at h; exact absurd h (by simp)
  | some d2 =>
    rw [hfind] at h
    cases h
    have hp := List.find?_some hfind
    exact hp

/-- C1: on a fresh facade, a scheduling turn of N requests with
well-formed, distinct identifiers makes exactly one store query; each
request resolves, in input order, to the store's record for its own
identifier (a found record always carries the requested identifier),
and `loadManyByIds` over those identifiers preserves input order. -/
theorem claim_c1_one_store_call_per_turn (store : List Doc) (coll : String)
    (reqs : List IdReq)
    (hw : ∀ r ∈ reqs, isWellFormedId r.id = true)
    (hne : reqs ≠ [])
    (hnd : (reqs.map (fun r => canonStr r.id)).Nodup) :
    (processIdTurn (createCachingMethods store coll {}) reqs).2.storeCalls = 1 ∧
    (processIdTurn (createCachingMethods store coll {}) reqs).1 =
      reqs.map (fun r => resolveId store (canonStr r.id)) ∧
    (∀ r ∈ reqs, ∀ d, resolveId store (canonStr r.id) = .found d →
      docHasId d (canonStr r.id) = true) ∧
    (∀ ttl, (loadManyByIds (createCachingMethods store coll {})
        (reqs.map IdReq.id) ttl).1 =
      reqs.map (fun r => resolveId store (canonStr r.id))) := by
  obtain ⟨h1, h2⟩ :=
    processIdTurn_clean_spec (createCachingMethods store coll {}) reqs rfl rfl hw
  refine ⟨?_, h1, fun r _ d h => resolveId_found store _ d h, ?_⟩
  · rw [h2]
    simp [createCachingMethods, hne]
  · intro ttl
    unfold loadManyByIds
    have hfilter : (reqs.map IdReq.id).filter isWellFormedId = reqs.map IdReq.id :=
      List.filter_eq_self.mpr (by
        intro i hi
        obtain ⟨r, hr, rfl⟩ := List.mem_map.mp hi
        exact hw r hr)
    rw [hfilter]
    obtain ⟨h3, _⟩ := processIdTurn_clean_spec (createCachingMethods store coll {})
      ((reqs.map IdReq.id).map (fun i => ⟨i, ttl⟩)) rfl rfl (by
        intro r hr
        obtain ⟨i, hi, rfl⟩ := List.mem_map.mp hr
        obtain ⟨r2, hr2, rfl⟩ := List.mem_map.mp hi
        exact hw r2 hr2)
    rw [h3, List.map_map, List.map_map]
    rfl

/-- Witness for C1: two concurrent requests for the two demo documents,
in one turn, make one store call and return the right records in order. -/
theorem claim_c1_witness :
    (processIdTurn (createCachingMethods demoStore testColl {})
      [⟨.strId hexA, none⟩, ⟨.objId hexB, none⟩]).2.storeCalls = 1 ∧
    (processIdTurn (createCachingMethods demoStore testColl {})
      [⟨.strId hexA, none⟩, ⟨.objId hexB, none⟩]).1 =
      [.found docA, .found docB] := by
  have h := claim_c1_one_store_call_per_turn demoStore testColl
    [⟨.strId hexA, none⟩, ⟨.objId hexB, none⟩]
    (by decide) (by decide) (by decide)
  exact ⟨h.1, h.2.1.trans (by decide)⟩

/-- C2: on a fresh facade, every filter submitted to a (possibly merged)
query turn receives exactly the store's records matching that specific
filter — each returned record re-matches the filter's predicate — in
store-return order, with a single compound store query for the whole
turn. -/
theorem claim_c2_filter_partition (store : List Doc) (coll : String)
    (reqs : List QueryReq) :
    (processQueryTurn (createCachingMethods store coll {}) reqs).1 =
      reqs.map (fun r => store.filter (fun d => r.q.matches d)) ∧
    (reqs ≠ [] →
      (processQueryTurn (createCachingMethods store coll {}) reqs).2.storeCalls = 1) := by
  obtain ⟨h1, h2⟩ :=
    processQueryTurn_clean_spec (createCachingMethods store coll {}) reqs rfl rfl
  refine ⟨h1, fun hne => ?_⟩
  rw [h2]
  simp [createCachingMethods, hne]

/-- Witness for C2: two distinct filters merged into one turn each get
exactly their own matches, with one store call. -/
theorem claim_c2_witness :
    (processQueryTurn (createCachingMethods demoStore testColl {})
      [⟨.createdAtLte 50, none⟩, ⟨.createdAtGte 50, none⟩]).1 =
      [[docB], [docA]] ∧
    (processQueryTurn (createCachingMethods demoStore testColl {})
      [⟨.createdAtLte 50, none⟩, ⟨.createdAtGte 50, none⟩]).2.storeCalls = 1 := by
  have h := claim_c2_filter_partition demoStore testColl
    [⟨.createdAtLte 50, none⟩, ⟨.createdAtGte 50, none⟩]
  exact ⟨h.1.trans (by decide), h.2 (by decide)⟩

/-- Counterexample for C4: the claim demands one output slot per input
identifier (output length = input length even with malformed inputs),
but a turn over `[null, hexA]` yields a single-slot output: malformed
identifiers are dropped from the output, as the repository's own tests
(`finds two with batching and skips null and/or undefined`) pin down. -/
theorem claim_c4_counterexample :
    (loadManyByIds (createCachingMethods demoStore testColl {})
      [.nullId, .strId hexA] none).1.length = 1 ∧
    (loadManyByIds (createCachingMethods demoStore testColl {})
      [.nullId, .strId hexA] none).1.length ≠
      ([IdInput.nullId, .strId hexA] : List IdInput).length := by
  constructor
  · decide
  · decide

/-- C4 (amended): `loadManyByIds` returns one result slot per
*well-formed* input identifier, preserving their input order, with
duplicate identifiers mapped to the same resolved value; malformed
inputs are dropped, so the output length is the number of well-formed
inputs rather than the full input length. -/
theorem claim_c4_amended_order_and_length (store : List Doc) (coll : String)
    (ids : List IdInput) (ttl : Option Nat) :
    (loadManyByIds (createCachingMethods store coll {}) ids ttl).1 =
      (ids.filter isWellFormedId).map (fun i => resolveId store (canonStr i)) ∧
    (loadManyByIds (createCachingMethods store coll {}) ids ttl).1.length =
      (ids.filter isWellFormedId).length := by
  unfold loadManyByIds
  obtain ⟨h1, _⟩ := processIdTurn_clean_spec (createCachingMethods store coll {})
    ((ids.filter isWellFormedId).map (fun i => ⟨i, ttl⟩)) rfl rfl (by
      intro r hr
      obtain ⟨i, hi, rfl⟩ := List.mem_map.mp hr
      exact List.of_mem_filter hi)
  rw [h1, List.map_map]
  exact ⟨rfl, by simp⟩

end Mongo

namespace Mongo

/-- A load whose identifier misses both the async cache and the loader's
result cache goes to the store: one fresh store call, the store's
current answer, the outcome learned by the loader's result cache, and —
exactly when a positive ttl was supplied — a new async-cache entry
expiring ttl seconds from now. -/
theorem loadOneById_fresh (st : Engine) (i : IdInput) (t : Option Nat)
    (hw : isWellFormedId i = true)
    (hcache : cacheGet st (.idKey st.collName (canonStr i)) = none)
    (hmemo : st.idMemo.find? (fun p => p.1 == canonStr i) = none) :
    (loadOneById st i t).1 = resolveId st.store (canonStr i) ∧
    (loadOneById st i t).2.storeCalls = st.storeCalls + 1 ∧
    (loadOneById st i t).2.idMemo =
      (canonStr i, resolveId st.store (canonStr i)) :: st.idMemo ∧
    (loadOneById st i t).2.store = st.store ∧
    (loadOneById st i t).2.collName = st.collName ∧
    (loadOneById st i t).2.now = st.now ∧
    (loadOneById st i t).2.allowFlush = st.allowFlush ∧
    (ttlPos t = false → (loadOneById st i t).2.cache = st.cache) ∧
    (∀ n, t = some n → 0 < n →
      (loadOneById st i t).2.cache =
        ⟨.idKey st.collName (canonStr i),
         resultToCacheVal (resolveId st.store (canonStr i)),
         some (st.now + n)⟩ :: st.cache) := by
  have hroute : routeIdReq st ⟨i, t⟩ = .pending (canonStr i) := by
    unfold routeIdReq
    rw [hw]
    cases h : ttlPos t <;> simp [hcache, hmemo, h]
  have hres : resolvePending (storeFindByIds st.store [canonStr i]) (canonStr i) =
      resolveId st.store (canonStr i) :=
    resolvePending_storeFindByIds st.store [canonStr i] (canonStr i) (by simp)
  unfold loadOneById processIdTurn
  simp only [List.map_cons, List.map_nil, hroute, List.filterMap_cons,
    List.filterMap_nil, dedupFirst, dedupFirstAux, List.not_mem_nil,
    if_neg, if_false, List.headD_cons, List.isEmpty_cons, hres]
  refine ⟨by trivial, by trivial, by simp, by trivial, by trivial, by trivial,
    by trivial, ?_, ?_⟩
  · intro ht
    cases t with
    | none => simp
    | some n =>
      have : ¬ 0 < n := by simpa [ttlPos] using ht
      simp [this]
  · intro n ht hn
    subst ht
    simp [hn, hres]

/-- A load that is routed to an immediate outcome (async-cache hit,
loader-cache hit, or malformed input) issues no store call and changes
none of the caches. -/
theorem loadOneById_immediate (st : Engine) (i : IdInput) (t : Option Nat)
    (res : LoadResult) (hroute : routeIdReq st ⟨i, t⟩ = .immediate res) :
    (loadOneById st i t).1 = res ∧
    (loadOneById st i t).2.storeCalls = st.storeCalls ∧
    (loadOneById st i t).2.cache = st.cache ∧
    (loadOneById st i t).2.idMemo = st.idMemo ∧
    (loadOneById st i t).2.queryMemo = st.queryMemo ∧
    (loadOneById st i t).2.store = st.store ∧
    (loadOneById st i t).2.collName = st.collName ∧
    (loadOneById st i t).2.now = st.now := by
  unfold loadOneById processIdTurn
  simp only [List.map_cons, List.map_nil, hroute, List.filterMap_cons,
    List.filterMap_nil, dedupFirst, dedupFirstAux, List.headD_cons]
  refine ⟨by trivial, by simp, ?_, by simp, by trivial, by trivial, by trivial,
    by trivial⟩
  cases t <;> simp [hroute]

/-- A filter load that misses both the async cache and the query
loader's result cache goes to the store: one fresh compound store call
returning exactly the filter's matches, the result learned by the query
loader's cache, and — exactly when a positive ttl was supplied — a new
async-cache entry expiring ttl seconds from now. -/
theorem loadManyByQuery_fresh (st : Engine) (q : MongoFilter) (t : Option Nat)
    (hcache : cacheGet st (.queryKey st.collName q) = none)
    (hmemo : st.queryMemo.find? (fun p => p.1 == q) = none) :
    (loadManyByQuery st q t).1 = st.store.filter (fun d => q.matches d) ∧
    (loadManyByQuery st q t).2.storeCalls = st.storeCalls + 1 ∧
    (loadManyByQuery st q t).2.queryMemo =
      (q, st.store.filter (fun d => q.matches d)) :: st.queryMemo ∧
    (loadManyByQuery st q t).2.store = st.store ∧
    (loadManyByQuery st q t).2.collName = st.collName ∧
    (loadManyByQuery st q t).2.now = st.now ∧
    (loadManyByQuery st q t).2.cacheSets =
      st.cacheSets + (if ttlPos t then 1 else 0) ∧
    (ttlPos t = false → (loadManyByQuery st q t).2.cache = st.cache) ∧
    (∀ n, t = some n → 0 < n →
      (loadManyByQuery st q t).2.cache =
        ⟨.queryKey st.collName q,
         .docs (st.store.filter (fun d => q.matches d)),
         some (st.now + n)⟩ :: st.cache) := by
  have hroute : routeQueryReq st ⟨q, t⟩ = .pending q := by
    unfold routeQueryReq
    cases h : ttlPos t <;> simp [hcache, hmemo, h]
  have hres : (storeFindOr st.store [q]).filter (fun d => q.matches d) =
      st.store.filter (fun d => q.matches d) :=
    filter_storeFindOr st.store [q] q (by simp)
  unfold loadManyByQuery processQueryTurn
  simp only [List.map_cons, List.map_nil, hroute, List.filterMap_cons,
    List.filterMap_nil, dedupFirst, dedupFirstAux, List.not_mem_nil,
    if_neg, if_false, List.headD_cons, List.isEmpty_cons, hres]
  refine ⟨by trivial, by trivial, by simp, by trivial, by trivial, by trivial,
    ?_, ?_, ?_⟩
  · cases t with
    | none => simp [ttlPos]
    | some n =>
      by_cases hn : 0 < n
      · simp [ttlPos, hn, hres]
      · simp [ttlPos, hn]
  · intro ht
    cases t with
    | none => simp
    | some n =>
      have : ¬ 0 < n := by simpa [ttlPos] using ht
      simp [this]
  · intro n ht hn
    subst ht
    simp [hn, hres]

/-- A filter load that is routed to an immediate result issues no store
call and changes none of the caches. -/
theorem loadManyByQuery_immediate (st : Engine) (q : MongoFilter)
    (t : Option Nat) (res : List Doc)
    (hroute : routeQueryReq st ⟨q, t⟩ = .immediate res) :
    (loadManyByQuery st q t).1 = res ∧
    (loadManyByQuery st q t).2.storeCalls = st.storeCalls ∧
    (loadManyByQuery st q t).2.cache = st.cache ∧
    (loadManyByQuery st q t).2.idMemo = st.idMemo ∧
    (loadManyByQuery st q t).2.queryMemo = st.queryMemo ∧
    (loadManyByQuery st q t).2.store = st.store ∧
    (loadManyByQuery st q t).2.collName = st.collName ∧
    (loadManyByQuery st q t).2.now = st.now := by
  unfold loadManyByQuery processQueryTurn
  simp only [List.map_cons, List.map_nil, hroute, List.filterMap_cons,
    List.filterMap_nil, dedupFirst, dedupFirstAux, List.headD_cons]
  refine ⟨by trivial, by simp, ?_, by trivial, by simp, by trivial, by trivial,
    by trivial⟩
  cases t <;> simp [hroute]

end Mongo

namespace Mongo

theorem cacheGet_of_find_none (st : Engine) (k : CacheKey)
    (h : st.cache.find? (fun e => e.key == k) = none) : cacheGet st k = none := by
  unfold cacheGet
  rw [h]

/-- After `deleteFromCacheById` on an identifier, its async-cache entry is
gone and a load of that identifier is fresh: one new store call returning
the store's current answer. -/
theorem loadOneById_after_delete (st : Engine) (i : IdInput) (t : Option Nat)
    (hw : isWellFormedId i = true) :
    cacheGet (deleteFromCacheById st (.id i)) (.idKey st.collName (canonStr i)) = none ∧
    (loadOneById (deleteFromCacheById st (.id i)) i t).1 =
      resolveId st.store (canonStr i) ∧
    (loadOneById (deleteFromCacheById st (.id i)) i t).2.storeCalls =
      st.storeCalls + 1 := by
  have hcache : cacheGet (deleteFromCacheById st (.id i))
      (.idKey st.collName (canonStr i)) = none := by
    apply cacheGet_of_find_none
    have h := find?_filter_not st.cache
      (fun e => e.key == CacheKey.idKey st.collName (canonStr i))
    simpa [deleteFromCacheById] using h
  have hmemo : (deleteFromCacheById st (.id i)).idMemo.find?
      (fun p => p.1 == canonStr i) = none := by
    have h := find?_filter_not st.idMemo (fun p => p.1 == canonStr i)
    simpa [deleteFromCacheById] using h
  obtain ⟨f1, f2, _⟩ := loadOneById_fresh (deleteFromCacheById st (.id i)) i t
    hw hcache hmemo
  exact ⟨hcache, f1, f2⟩

/-- After `deleteFromCacheById` on a filter, its async-cache entry is gone
and a load of that filter is fresh: one new store call returning exactly
the store's current matches. -/
theorem loadManyByQuery_after_delete (st : Engine) (q : MongoFilter)
    (t : Option Nat) :
    cacheGet (deleteFromCacheById st (.query q)) (.queryKey st.collName q) = none ∧
    (loadManyByQuery (deleteFromCacheById st (.query q)) q t).1 =
      st.store.filter (fun d => q.matches d) ∧
    (loadManyByQuery (deleteFromCacheById st (.query q)) q t).2.storeCalls =
      st.storeCalls + 1 := by
  have hcache : cacheGet (deleteFromCacheById st (.query q))
      (.queryKey st.collName q) = none := by
    apply cacheGet_of_find_none
    have h := find?_filter_not st.cache
      (fun e => e.key == CacheKey.queryKey st.collName q)
    simpa [deleteFromCacheById] using h
  have hmemo : (deleteFromCacheById st (.query q)).queryMemo.find?
      (fun p => p.1 == q) = none := by
    have h := find?_filter_not st.queryMemo (fun p => p.1 == q)
    simpa [deleteFromCacheById] using h
  obtain ⟨f1, f2, _⟩ := loadManyByQuery_fresh (deleteFromCacheById st (.query q)) q t
    hcache hmemo
  exact ⟨hcache, f1, f2⟩

/-- C7: for any engine state — in particular one where the identifier or
filter was previously loaded and cached, expired or not —
`deleteFromCacheById` removes the async-cache entry under the loader's
own key derivation, and the very next load of that identifier or filter
issues a fresh store call and returns the store's current (never stale)
answer. -/
theorem claim_c7_delete_then_fresh_load (st : Engine) (i : IdInput)
    (q : MongoFilter) (t t2 : Option Nat) (hw : isWellFormedId i = true) :
    cacheGet (deleteFromCacheById st (.id i)) (.idKey st.collName (canonStr i)) = none ∧
    (loadOneById (deleteFromCacheById st (.id i)) i t).1 =
      resolveId st.store (canonStr i) ∧
    (loadOneById (deleteFromCacheById st (.id i)) i t).2.storeCalls =
      st.storeCalls + 1 ∧
    cacheGet (deleteFromCacheById st (.query q)) (.queryKey st.collName q) = none ∧
    (loadManyByQuery (deleteFromCacheById st (.query q)) q t2).1 =
      st.store.filter (fun d => q.matches d) ∧
    (loadManyByQuery (deleteFromCacheById st (.query q)) q t2).2.storeCalls =
      st.storeCalls + 1 := by
  obtain ⟨a1, a2, a3⟩ := loadOneById_after_delete st i t hw
  obtain ⟨b1, b2, b3⟩ := loadManyByQuery_after_delete st q t2
  exact ⟨a1, a2, a3, b1, b2, b3⟩

/-- Witness for C7: on a facade that has loaded and cached `docA` under a
5-second ttl (not yet expired), deleting its identifier and reloading
makes a second store call and returns the fresh record. -/
theorem claim_c7_witness :
    (let st := (loadOneById (createCachingMethods demoStore testColl {})
        (.strId hexA) (some 5)).2
     cacheGet st (.idKey testColl hexA) = some (.doc docA) ∧
     cacheGet (deleteFromCacheById st (.id (.strId hexA)))
       (.idKey st.collName (canonStr (.strId hexA))) = none ∧
     (loadOneById (deleteFromCacheById st (.id (.strId hexA)))
        (.strId hexA) none).1 = resolveId st.store (canonStr (.strId hexA)) ∧
     (loadOneById (deleteFromCacheById st (.id (.strId hexA)))
        (.strId hexA) none).2.storeCalls = st.storeCalls + 1) := by
  refine ⟨by decide, ?_, ?_, ?_⟩
  · exact (claim_c7_delete_then_fresh_load _ (.strId hexA) demoQuery none none
      (by decide)).1
  · exact (claim_c7_delete_then_fresh_load _ (.strId hexA) demoQuery none none
      (by decide)).2.1
  · exact (claim_c7_delete_then_fresh_load _ (.strId hexA) demoQuery none none
      (by decide)).2.2.1

end Mongo

namespace Mongo

/-- C8: with no ttl anywhere, a first `loadOneById` of a well-formed
identifier on a fresh facade makes one store call; a second call for the
same identifier is memoized by the batching loader across turns — zero
further store calls, the very same result — and stays memoized until
`deleteFromCacheById` purges it, after which the next load makes a new
store call. -/
theorem claim_c8_loader_memoization (store : List Doc) (coll : String)
    (i : IdInput) (hw : isWellFormedId i = true) :
    (loadOneById (createCachingMethods store coll {}) i none).2.storeCalls = 1 ∧
    (loadOneById ((loadOneById (createCachingMethods store coll {}) i none).2)
       i none).1 =
      (loadOneById (createCachingMethods store coll {}) i none).1 ∧
    (loadOneById ((loadOneById (createCachingMethods store coll {}) i none).2)
       i none).2.storeCalls = 1 ∧
    (loadOneById (deleteFromCacheById
        ((loadOneById ((loadOneById (createCachingMethods store coll {}) i none).2)
           i none).2) (.id i)) i none).2.storeCalls = 2 := by
  obtain ⟨f1, f2, f3, f4, f5, f6, f7, f8, f9⟩ :=
    loadOneById_fresh (createCachingMethods store coll {}) i none hw
      (cacheGet_clean _ rfl _) rfl
  have hm1 : ((loadOneById (createCachingMethods store coll {}) i none).2).idMemo.find?
      (fun p => p.1 == canonStr i) =
      some (canonStr i, resolveId store (canonStr i)) := by
    rw [f3]
    simp only [List.find?, beq_self_eq_true]
    rfl
  have hroute2 : routeIdReq ((loadOneById (createCachingMethods store coll {}) i none).2)
      ⟨i, none⟩ = .immediate (resolveId store (canonStr i)) := by
    unfold routeIdReq
    rw [hw]
    simp [ttlPos, hm1]
  obtain ⟨g1, g2, g3, g4, g5, g6, g7, g8⟩ :=
    loadOneById_immediate ((loadOneById (createCachingMethods store coll {}) i none).2)
      i none (resolveId store (canonStr i)) hroute2
  have hsc1 : (loadOneById (createCachingMethods store coll {}) i none).2.storeCalls = 1 := f2
  have hsc2 : (loadOneById ((loadOneById (createCachingMethods store coll {}) i none).2)
      i none).2.storeCalls = 1 := by rw [g2, hsc1]
  refine ⟨hsc1, g1.trans f1.symm, hsc2, ?_⟩
  obtain ⟨_, _, k3⟩ := loadOneById_after_delete
    ((loadOneById ((loadOneById (createCachingMethods store coll {}) i none).2) i none).2)
    i none hw
  rw [k3, hsc2]

/-- Witness for C8: the memoization chain evaluated on the demo store and
the identifier of `docA`. -/
theorem claim_c8_witness :
    (loadOneById (createCachingMethods demoStore testColl {}) (.strId hexA) none).2.storeCalls = 1 ∧
    (loadOneById ((loadOneById (createCachingMethods demoStore testColl {}) (.strId hexA) none).2)
       (.strId hexA) none).1 =
      (loadOneById (createCachingMethods demoStore testColl {}) (.strId hexA) none).1 ∧
    (loadOneById ((loadOneById (createCachingMethods demoStore testColl {}) (.strId hexA) none).2)
       (.strId hexA) none).2.storeCalls = 1 ∧
    (loadOneById (deleteFromCacheById
        ((loadOneById ((loadOneById (createCachingMethods demoStore testColl {}) (.strId hexA) none).2)
           (.strId hexA) none).2) (.id (.strId hexA))) (.strId hexA) none).2.storeCalls = 2 :=
  claim_c8_loader_memoization demoStore testColl (.strId hexA) (by decide)

end Mongo

namespace Mongo

/-- C5: a well-formed identifier matching nothing in the store loads as
the explicit not-found result (`undefined`), which is distinct from the
`null` result reserved for malformed identifiers; when the first call
supplied a positive cache duration, a subsequent call for the same
identifier — with or without a ttl — makes zero further store calls and
still returns not-found. -/
theorem claim_c5_notfound_sentinel (store : List Doc) (coll : String)
    (i : IdInput) (n : Nat) (t2 : Option Nat)
    (hw : isWellFormedId i = true) (hn : 0 < n)
    (hmiss : ∀ d ∈ store, docHasId d (canonStr i) = false) :
    (loadOneById (createCachingMethods store coll {}) i (some n)).1 = .notFound ∧
    (loadOneById (createCachingMethods store coll {}) i (some n)).2.storeCalls = 1 ∧
    (loadOneById ((loadOneById (createCachingMethods store coll {}) i (some n)).2)
       i t2).1 = .notFound ∧
    (loadOneById ((loadOneById (createCachingMethods store coll {}) i (some n)).2)
       i t2).2.storeCalls = 1 ∧
    LoadResult.notFound ≠ LoadResult.nullResult := by
  have hres : resolveId (createCachingMethods store coll {}).store (canonStr i) =
      .notFound := by
    unfold resolveId
    rw [List.find?_eq_none.mpr (fun d hd => by simp [hmiss d hd])]
  obtain ⟨f1, f2, f3, f4, f5, f6, f7, f8, f9⟩ :=
    loadOneById_fresh (createCachingMethods store coll {}) i (some n) hw
      (cacheGet_clean _ rfl _) rfl
  have hcache1 : (loadOneById (createCachingMethods store coll {}) i (some n)).2.cache =
      [⟨.idKey (createCachingMethods store coll {}).collName (canonStr i),
        resultToCacheVal LoadResult.notFound,
        some ((createCachingMethods store coll {}).now + n)⟩] := by
    rw [f9 n rfl hn, hres]
    rfl
  have hmemo1 : (loadOneById (createCachingMethods store coll {}) i (some n)).2.idMemo =
      [(canonStr i, LoadResult.notFound)] := by
    rw [f3, hres]
    rfl
  have hnow1 : (loadOneById (createCachingMethods store coll {}) i (some n)).2.now <
      (createCachingMethods store coll {}).now + n := by
    rw [f6]
    exact Nat.lt_add_of_pos_right hn
  have hget : cacheGet ((loadOneById (createCachingMethods store coll {}) i (some n)).2)
      (.idKey ((loadOneById (createCachingMethods store coll {}) i (some n)).2).collName
        (canonStr i)) = some (resultToCacheVal LoadResult.notFound) := by
    unfold cacheGet
    rw [hcache1]
    have hk : ((⟨.idKey (createCachingMethods store coll {}).collName (canonStr i),
        resultToCacheVal LoadResult.notFound,
        some ((createCachingMethods store coll {}).now + n)⟩ : CacheEntry).key ==
        CacheKey.idKey ((loadOneById (createCachingMethods store coll {}) i (some n)).2).collName
          (canonStr i)) = true := by
      rw [f5]
      exact beq_self_eq_true _
    simp only [List.find?, hk]
    simp [hnow1]
  have hroute2 : routeIdReq ((loadOneById (createCachingMethods store coll {}) i (some n)).2)
      ⟨i, t2⟩ = .immediate .notFound := by
    unfold routeIdReq
    rw [hw]
    have hm : ((loadOneById (createCachingMethods store coll {}) i (some n)).2).idMemo.find?
        (fun p => p.1 == canonStr i) = some (canonStr i, LoadResult.notFound) := by
      rw [hmemo1]
      simp [List.find?]
    cases h2 : ttlPos t2 with
    | true => simp [hget, cacheValToResult, resultToCacheVal, hm]
    | false => simp [hget, cacheValToResult, resultToCacheVal, hm]
  obtain ⟨g1, g2, _⟩ :=
    loadOneById_immediate ((loadOneById (createCachingMethods store coll {}) i (some n)).2)
      i t2 .notFound hroute2
  have hsc1 : (loadOneById (createCachingMethods store coll {}) i (some n)).2.storeCalls = 1 := f2
  refine ⟨f1.trans hres, hsc1, g1, by rw [g2, hsc1], by simp⟩

/-- Witness for C5: the unmatched well-formed identifier `hexC` on the
demo store, first call with ttl 1, second call without ttl. -/
theorem claim_c5_witness :
    (loadOneById (createCachingMethods demoStore testColl {}) (.strId hexC) (some 1)).1 = .notFound ∧
    (loadOneById ((loadOneById (createCachingMethods demoStore testColl {}) (.strId hexC) (some 1)).2)
       (.strId hexC) none).1 = .notFound ∧
    (loadOneById ((loadOneById (createCachingMethods demoStore testColl {}) (.strId hexC) (some 1)).2)
       (.strId hexC) none).2.storeCalls = 1 := by
  have h := claim_c5_notfound_sentinel demoStore testColl (.strId hexC) 1 none
    (by decide) (by decide) (by decide)
  exact ⟨h.1, h.2.2.1, h.2.2.2.1⟩

end Mongo

namespace Mongo

/-- Without a positive ttl, an identifier load writes nothing to the
async cache, from any engine state. -/
theorem loadOneById_no_cache_write (st : Engine) (i : IdInput)
    (t : Option Nat) (ht : ttlPos t = false) :
    (loadOneById st i t).2.cache = st.cache := by
  unfold loadOneById processIdTurn
  cases hroute : routeIdReq st ⟨i, t⟩ with
  | immediate r =>
    cases t with
    | none => simp [hroute]
    | some n =>
      have hn : ¬ 0 < n := by simpa [ttlPos] using ht
      simp [hroute, hn]
  | pending c =>
    cases t with
    | none => simp [hroute]
    | some n =>
      have hn : ¬ 0 < n := by simpa [ttlPos] using ht
      simp [hroute, hn]

/-- Without a positive ttl, a filter load writes nothing to the async
cache, from any engine state. -/
theorem loadManyByQuery_no_cache_write (st : Engine) (q : MongoFilter)
    (t : Option Nat) (ht : ttlPos t = false) :
    (loadManyByQuery st q t).2.cache = st.cache := by
  unfold loadManyByQuery processQueryTurn
  cases hroute : routeQueryReq st ⟨q, t⟩ with
  | immediate r =>
    cases t with
    | none => simp [hroute]
    | some n =>
      have hn : ¬ 0 < n := by simpa [ttlPos] using ht
      simp [hroute, hn]
  | pending c =>
    cases t with
    | none => simp [hroute]
    | some n =>
      have hn : ¬ 0 < n := by simpa [ttlPos] using ht
      simp [hroute, hn]

/-- Reading a single-entry cache: present exactly while unexpired. -/
theorem cacheGet_single (st : Engine) (k : CacheKey) (v : CacheVal) (e : Nat)
    (hc : st.cache = [⟨k, v, some e⟩]) :
    cacheGet st k = if st.now < e then some v else none := by
  unfold cacheGet
  rw [hc]
  simp [List.find?]

/-- Counterexample for C6: the claim's last clause says a repeat
`loadManyByQuery` with the identical filter *after* the ttl has elapsed
makes a new store call; in fact, although the cache entry has expired,
the repeat is served from the query loader's inter-turn result cache and
the total store-call count stays at 1. -/
theorem claim_c6_counterexample :
    (let st1 := (loadManyByQuery (createCachingMethods demoStore testColl {})
        demoQuery (some 1)).2
     cacheGet (st1.advance 2) (.queryKey testColl demoQuery) = none ∧
     (loadManyByQuery (st1.advance 2) demoQuery (some 1)).2.storeCalls = 1 ∧
     (loadManyByQuery (st1.advance 2) demoQuery (some 1)).2.storeCalls ≠ 2) := by
  exact ⟨by decide, by decide, by decide⟩

end Mongo

namespace Mongo

/-- C6 (amended): a load with the ttl option absent or zero writes
nothing to the async cache (from any state); with a positive ttl of `n`
seconds the resolved value sits in the async cache under the derived key
strictly before `n` seconds elapse and is absent once `n` seconds have
elapsed; a repeat `loadManyByQuery` with the identical filter before
expiry makes only one store call total; and — the amendment the
counterexample forces — a repeat after expiry *also* makes no new store
call, because it is served from the query loader's inter-turn result
cache, while still returning the correct result. -/
theorem claim_c6_amended_ttl_semantics (store : List Doc) (coll : String)
    (q : MongoFilter) (i : IdInput) (n : Nat) (st : Engine)
    (t0 t2 : Option Nat) (dt : Nat)
    (hw : isWellFormedId i = true) (hn : 0 < n) (ht0 : ttlPos t0 = false) :
    (loadOneById st i t0).2.cache = st.cache ∧
    (loadManyByQuery st q t0).2.cache = st.cache ∧
    (loadManyByQuery (createCachingMethods store coll {}) q (some n)).1 =
      store.filter (fun d => q.matches d) ∧
    (loadManyByQuery (createCachingMethods store coll {}) q (some n)).2.storeCalls = 1 ∧
    (dt < n →
      cacheGet (((loadManyByQuery (createCachingMethods store coll {}) q (some n)).2).advance dt)
        (.queryKey coll q) = some (.docs (store.filter (fun d => q.matches d)))) ∧
    (n ≤ dt →
      cacheGet (((loadManyByQuery (createCachingMethods store coll {}) q (some n)).2).advance dt)
        (.queryKey coll q) = none) ∧
    (loadManyByQuery (((loadManyByQuery (createCachingMethods store coll {}) q (some n)).2).advance dt)
       q t2).2.storeCalls = 1 ∧
    (loadManyByQuery (((loadManyByQuery (createCachingMethods store coll {}) q (some n)).2).advance dt)
       q t2).1 = store.filter (fun d => q.matches d) ∧
    (dt < n →
      cacheGet (((loadOneById (createCachingMethods store coll {}) i (some n)).2).advance dt)
        (.idKey coll (canonStr i)) =
        some (resultToCacheVal (resolveId store (canonStr i)))) ∧
    (n ≤ dt →
      cacheGet (((loadOneById (createCachingMethods store coll {}) i (some n)).2).advance dt)
        (.idKey coll (canonStr i)) = none) := by
  obtain ⟨f1, f2, f3, f4, f5, f6, f7, f8, f9⟩ :=
    loadManyByQuery_fresh (createCachingMethods store coll {}) q (some n)
      (cacheGet_clean _ rfl _) rfl
  obtain ⟨g1, g2, g3, g4, g5, g6, g7, g8, g9⟩ :=
    loadOneById_fresh (createCachingMethods store coll {}) i (some n) hw
      (cacheGet_clean _ rfl _) rfl
  have hcq : ((loadManyByQuery (createCachingMethods store coll {}) q (some n)).2.advance dt).cache =
      [⟨.queryKey coll q, .docs (store.filter (fun d => q.matches d)),
        some ((createCachingMethods store coll {}).now + n)⟩] :=
    (f9 n rfl hn).trans rfl
  have hgetq := cacheGet_single
    (((loadManyByQuery (createCachingMethods store coll {}) q (some n)).2).advance dt)
    (.queryKey coll q) (.docs (store.filter (fun d => q.matches d)))
    ((createCachingMethods store coll {}).now + n) hcq
  have hnowq : (((loadManyByQuery (createCachingMethods store coll {}) q (some n)).2).advance dt).now =
      (createCachingMethods store coll {}).now + dt := by
    show (loadManyByQuery (createCachingMethods store coll {}) q (some n)).2.now + dt = _
    rw [f6]
  have hci : ((loadOneById (createCachingMethods store coll {}) i (some n)).2.advance dt).cache =
      [⟨.idKey coll (canonStr i), resultToCacheVal (resolveId store (canonStr i)),
        some ((createCachingMethods store coll {}).now + n)⟩] :=
    (g9 n rfl hn).trans rfl
  have hgeti := cacheGet_single
    (((loadOneById (createCachingMethods store coll {}) i (some n)).2).advance dt)
    (.idKey coll (canonStr i)) (resultToCacheVal (resolveId store (canonStr i)))
    ((createCachingMethods store coll {}).now + n) hci
  have hnowi : (((loadOneById (createCachingMethods store coll {}) i (some n)).2).advance dt).now =
      (createCachingMethods store coll {}).now + dt := by
    show (loadOneById (createCachingMethods store coll {}) i (some n)).2.now + dt = _
    rw [g6]
  have hmemoAdv : (((loadManyByQuery (createCachingMethods store coll {}) q (some n)).2).advance dt).queryMemo.find?
      (fun p => p.1 == q) =
      some (q, store.filter (fun d => q.matches d)) := by
    show ((loadManyByQuery (createCachingMethods store coll {}) q (some n)).2).queryMemo.find?
      (fun p => p.1 == q) = _
    rw [f3]
    simp only [List.find?, beq_self_eq_true]
    rfl
  have hroute2 : routeQueryReq
      (((loadManyByQuery (createCachingMethods store coll {}) q (some n)).2).advance dt)
      ⟨q, t2⟩ = .immediate (store.filter (fun d => q.matches d)) := by
    unfold routeQueryReq
    cases h2 : ttlPos t2 with
    | false => simp [hmemoAdv]
    | true =>
      by_cases hdt : dt < n
      · have : cacheGet (((loadManyByQuery (createCachingMethods store coll {}) q (some n)).2).advance dt)
            (.queryKey coll q) = some (.docs (store.filter (fun d => q.matches d))) := by
          rw [hgetq, hnowq, if_pos (Nat.add_lt_add_left hdt _)]
        have hcoll : (((loadManyByQuery (createCachingMethods store coll {}) q (some n)).2).advance dt).collName = coll := by
          show (loadManyByQuery (createCachingMethods store coll {}) q (some n)).2.collName = coll
          rw [f5]
          rfl
        rw [hcoll]
        simp [this, cacheValToDocs]
      · have : cacheGet (((loadManyByQuery (createCachingMethods store coll {}) q (some n)).2).advance dt)
            (.queryKey coll q) = none := by
          rw [hgetq, hnowq, if_neg (by exact fun hlt => hdt (Nat.lt_of_add_lt_add_left hlt))]
        have hcoll : (((loadManyByQuery (createCachingMethods store coll {}) q (some n)).2).advance dt).collName = coll := by
          show (loadManyByQuery (createCachingMethods store coll {}) q (some n)).2.collName = coll
          rw [f5]
          rfl
        rw [hcoll]
        simp [this, hmemoAdv]
  obtain ⟨m1, m2, _⟩ := loadManyByQuery_immediate
    (((loadManyByQuery (createCachingMethods store coll {}) q (some n)).2).advance dt)
    q t2 (store.filter (fun d => q.matches d)) hroute2
  refine ⟨loadOneById_no_cache_write st i t0 ht0,
          loadManyByQuery_no_cache_write st q t0 ht0,
          f1, f2, ?_, ?_, ?_, m1, ?_, ?_⟩
  · intro hdt
    rw [hgetq, hnowq, if_pos (Nat.add_lt_add_left hdt _)]
  · intro hdt
    rw [hgetq, hnowq, if_neg (by
      intro hlt
      exact absurd (Nat.lt_of_add_lt_add_left hlt) (Nat.not_lt.mpr hdt))]
  · rw [m2]
    show (loadManyByQuery (createCachingMethods store coll {}) q (some n)).2.storeCalls = 1
    exact f2
  · intro hdt
    rw [hgeti, hnowi, if_pos (Nat.add_lt_add_left hdt _)]
  · intro hdt
    rw [hgeti, hnowi, if_neg (by
      intro hlt
      exact absurd (Nat.lt_of_add_lt_add_left hlt) (Nat.not_lt.mpr hdt))]

/-- Witness for C6 (amended): on the demo store with ttl 1, the cached
filter result is present at once, absent two seconds later, and both the
repeat before expiry and the repeat after expiry leave the store-call
count at 1. -/
theorem claim_c6_witness :
    cacheGet (((loadManyByQuery (createCachingMethods demoStore testColl {}) demoQuery (some 1)).2).advance 0)
      (.queryKey testColl demoQuery) = some (.docs [docB]) ∧
    cacheGet (((loadManyByQuery (createCachingMethods demoStore testColl {}) demoQuery (some 1)).2).advance 2)
      (.queryKey testColl demoQuery) = none ∧
    (loadManyByQuery (((loadManyByQuery (createCachingMethods demoStore testColl {}) demoQuery (some 1)).2).advance 0)
       demoQuery (some 1)).2.storeCalls = 1 ∧
    (loadManyByQuery (((loadManyByQuery (createCachingMethods demoStore testColl {}) demoQuery (some 1)).2).advance 2)
       demoQuery (some 1)).2.storeCalls = 1 ∧
    (loadOneById (createCachingMethods demoStore testColl {}) (.strId hexA) none).2.cache =
      (createCachingMethods demoStore testColl {}).cache := by
  have h0 := claim_c6_amended_ttl_semantics demoStore testColl demoQuery (.strId hexA) 1
    (createCachingMethods demoStore testColl {}) none (some 1) 0
    (by decide) (by decide) (by decide)
  have h2 := claim_c6_amended_ttl_semantics demoStore testColl demoQuery (.strId hexA) 1
    (createCachingMethods demoStore testColl {}) none (some 1) 2
    (by decide) (by decide) (by decide)
  refine ⟨(h0.2.2.2.2.1 (by decide)).trans (by decide),
          h2.2.2.2.2.2.1 (by decide),
          h0.2.2.2.2.2.2.1,
          h2.2.2.2.2.2.2.1,
          h0.1⟩

end Mongo
